import Mathlib

/-!
Verification of the slug-derivation pipeline and flashcard rendering of
the-notewriter testdata generators
(`internal/core/testdata/TestParser/en-irregular-verbs.py` and
`internal/core/testdata/TestParser/expression.py`).

The Python pipeline is

  def slugify(value):
      value = unicodedata.normalize('NFKD', value).encode('ascii', 'ignore').decode('ascii').lower()
      return re.sub(r'[\W_]+', '-', value)

followed by one rendering loop per record kind that prints one flashcard
block per record, in list order.
-/

namespace NoteWriter

/-- Character-wise model of `unicodedata.normalize('NFKD', ·)` (Unicode
compatibility decomposition), restricted to the characters that occur in
this development: ASCII characters and CJK ideographs have no
decomposition and map to themselves; the precomposed letter U+00EA
(LATIN SMALL LETTER E WITH CIRCUMFLEX) decomposes to the base letter
U+0065 followed by the combining mark U+0302. -/
def nfkdChar (c : Char) : List Char :=
  if c.toNat = 0xEA then [Char.ofNat 0x65, Char.ofNat 0x302] else [c]

/-- Concatenated character-wise NFKD decomposition of a character list. -/
def nfkdL : List Char → List Char
  | [] => []
  | c :: rest => nfkdChar c ++ nfkdL rest

/-- Model of `.encode('ascii', 'ignore').decode('ascii')`: keep exactly the
characters with code point below 128, drop everything else. -/
def asciiIgnoreL (l : List Char) : List Char :=
  l.filter (fun c => decide (c.toNat ≤ 127))

/-- Model of `.lower()` on the ASCII string produced by the previous stage:
ASCII uppercase letters are mapped to lowercase, everything else is kept
(core `Char.toLower` is exactly this map). -/
def lowerL (l : List Char) : List Char := l.map Char.toLower

/-- The word characters of the substitution class `[\W_]`: because the class
re-adds `_` to the complement of `\w`, a character is kept iff it is an
ASCII letter or digit. -/
def isWordChar (c : Char) : Bool :=
  decide ((65 ≤ c.toNat ∧ c.toNat ≤ 90) ∨ (97 ≤ c.toNat ∧ c.toNat ≤ 122) ∨
    (48 ≤ c.toNat ∧ c.toNat ≤ 57))

/-- A character matched by the class `[\W_]` (a separator). -/
def isSep (c : Char) : Bool := !(isWordChar c)

/-- Model of `re.sub(r'[\W_]+', '-', value)`: every maximal run of separator
characters is replaced by a single hyphen.  The flag records whether we are
inside a separator run whose hyphen has not been emitted yet. -/
def collapseGo : Bool → List Char → List Char
  | pending, [] => if pending then ['-'] else []
  | pending, c :: rest =>
    if isSep c then collapseGo true rest
    else if pending then '-' :: c :: collapseGo false rest
    else c :: collapseGo false rest

/-- Model of `re.sub(r'[\W_]+', '-', value)` on a character list. -/
def collapseL (l : List Char) : List Char := collapseGo false l

/-- The full `slugify` pipeline on a character list. -/
def slugifyL (l : List Char) : List Char :=
  collapseL (lowerL (asciiIgnoreL (nfkdL l)))

/-- The Normalizer of the spec: the first statement of `slugify`, namely
`unicodedata.normalize('NFKD', value).encode('ascii', 'ignore').decode('ascii').lower()`. -/
def normalize (s : String) : String := ⟨lowerL (asciiIgnoreL (nfkdL s.data))⟩

/-- The Python `slugify`: Normalizer followed by the `[\W_]+` → `-`
substitution. -/
def slugify (s : String) : String := ⟨collapseL (normalize s).data⟩

/-- One entry of the `IRREGULAR_VERBS` table (keys `base`, `past_tense`,
`past_participle`). -/
structure IrregularVerb where
  base : String
  past_tense : String
  past_participle : String

/-- One entry of the `EXPRESSIONS` table (keys `en-en` and `fr-fr`,
written with underscores because Lean identifiers cannot contain hyphens). -/
structure Expression where
  en_en : String
  fr_fr : String

/-- The rendered flashcard block of one record, split into the fields of the
output grammar: title line, slug line, kind tag and header text, front
content, and back content (the part after the `---` separator). -/
structure Block where
  title : String
  slug : String
  kindTag : String
  headerText : String
  front : String
  back : String

/-- Rendering of one irregular verb, from the print template
`## Flashcard: {base}` / `@slug: {slugify("em-irregular-verb-" + base)}` /
`(Irregular Verb) {base}` / `---` / `{past_tense} / {past_participle}`. -/
def renderVerb (verb : IrregularVerb) : Block :=
  { title := verb.base
    slug := slugify ("em-irregular-verb-" ++ verb.base)
    kindTag := "Irregular Verb"
    headerText := verb.base
    front := ""
    back := verb.past_tense ++ " / " ++ verb.past_participle }

/-- Rendering of one expression, from the print template
`## Flashcard: {en-en}` / `@slug: {slugify(en-en)}` /
`(Expression) **Translate**` / foreign span of `en-en` / `---` /
native span of `fr-fr`. -/
def renderExpression (expr : Expression) : Block :=
  { title := expr.en_en
    slug := slugify expr.en_en
    kindTag := "Expression"
    headerText := "**Translate**"
    front := "_<span class=\"foreign\">" ++ expr.en_en ++ "</span>_"
    back := "_<span class=\"native\">" ++ expr.fr_fr ++ "</span>_" }

/-- A record of the Catalog: the closed union of the observed record kinds. -/
inductive Record where
  | verb : IrregularVerb → Record
  | expression : Expression → Record

/-- The Renderer, dispatching on the record kind. -/
def render : Record → Block
  | .verb v => renderVerb v
  | .expression e => renderExpression e

/-- The compile pass: the rendering loop walks the catalog in order and
emits one block per record (`for verb in IRREGULAR_VERBS: print(...)`,
`for expr in EXPRESSIONS: print(...)`). -/
def compile (catalog : List Record) : List Block := catalog.map render

/-- The `IRREGULAR_VERBS` table of `en-irregular-verbs.py`. -/
def IRREGULAR_VERBS : List IrregularVerb :=
  [⟨"be", "was/were", "been"⟩, ⟨"have", "had", "had"⟩]

/-- The `EXPRESSIONS` table of `expression.py`. -/
def EXPRESSIONS : List Expression :=
  [⟨"be caught between a rock and a hard place",
    "être pris entre le marteau et l'enclume"⟩]

/-- Lowercase ASCII alphanumeric, the repeated character class of the slug
charset regular expression `^[a-z0-9]+(-[a-z0-9]+)*$`. -/
def isLowerAlnum (c : Char) : Bool :=
  decide ((97 ≤ c.toNat ∧ c.toNat ≤ 122) ∨ (48 ≤ c.toNat ∧ c.toNat ≤ 57))

/-- Recognizer for the part of `^[a-z0-9]+(-[a-z0-9]+)*$` after the first
character: alphanumerics and single hyphens, each hyphen followed by an
alphanumeric, no trailing hyphen. -/
def slugTailOK : List Char → Bool
  | [] => true
  | ['-'] => false
  | '-' :: c :: rest => isLowerAlnum c && slugTailOK rest
  | c :: rest => isLowerAlnum c && slugTailOK rest

/-- Recognizer for the slug charset regular expression
`^[a-z0-9]+(-[a-z0-9]+)*$` of the spec. -/
def matchesSlugRegex (s : String) : Bool :=
  match s.data with
  | [] => false
  | c :: rest => isLowerAlnum c && slugTailOK rest

/-- No two consecutive hyphens occur in the list. -/
def noDoubledHyphen : List Char → Bool
  | [] => true
  | [_] => true
  | a :: b :: rest => !(a == '-' && b == '-') && noDoubledHyphen (b :: rest)

theorem toNat_ofNat_valid (n : Nat) (h : n.isValidChar) : (Char.ofNat n).toNat = n := by
  unfold Char.ofNat
  rw [dif_pos h]
  rfl

theorem toLower_not_upper (c : Char) :
    ¬(65 ≤ (Char.toLower c).toNat ∧ (Char.toLower c).toNat ≤ 90) := by
  simp only [Char.toLower]
  by_cases h : c.toNat ≥ 65 ∧ c.toNat ≤ 90
  · rw [if_pos h, toNat_ofNat_valid _ (Or.inl (by omega))]
    omega
  · rw [if_neg h]
    exact fun hc => h ⟨hc.1, hc.2⟩

theorem toLower_eq_self_of_not_upper {c : Char}
    (h : ¬(65 ≤ c.toNat ∧ c.toNat ≤ 90)) : Char.toLower c = c := by
  simp only [Char.toLower]
  rw [if_neg (fun hc => h ⟨hc.1, hc.2⟩)]

theorem toLower_toLower (c : Char) :
    Char.toLower (Char.toLower c) = Char.toLower c :=
  toLower_eq_self_of_not_upper (toLower_not_upper c)

theorem isWordChar_ne_hyphen {c : Char} (h : isWordChar c = true) : c ≠ '-' := by
  intro e
  subst e
  exact absurd h (by decide)

theorem mem_collapseGo : ∀ (l : List Char) (p : Bool) (c : Char),
    c ∈ collapseGo p l → c = '-' ∨ (c ∈ l ∧ isWordChar c = true) := by
  intro l
  induction l with
  | nil =>
    intro p c h
    cases p
    · simp [collapseGo] at h
    · simp [collapseGo] at h
      exact Or.inl h
  | cons a rest ih =>
    intro p c h
    cases ha : isSep a with
    | true =>
      rw [collapseGo, if_pos ha] at h
      rcases ih true c h with h1 | ⟨h2, h3⟩
      · exact Or.inl h1
      · exact Or.inr ⟨List.mem_cons_of_mem a h2, h3⟩
    | false =>
      have haw : isWordChar a = true := by
        have := congrArg Bool.not ha
        simpa [isSep] using this
      cases p with
      | true =>
        rw [collapseGo, if_neg (by simp [ha]), if_pos rfl] at h
        rcases List.mem_cons.1 h with h1 | h1
        · exact Or.inl h1
        · rcases List.mem_cons.1 h1 with h2 | h2
          · exact Or.inr ⟨h2 ▸ List.mem_cons_self a rest, h2 ▸ haw⟩
          · rcases ih false c h2 with h3 | ⟨h4, h5⟩
            · exact Or.inl h3
            · exact Or.inr ⟨List.mem_cons_of_mem a h4, h5⟩
      | false =>
        rw [collapseGo, if_neg (by simp [ha]), if_neg (by simp)] at h
        rcases List.mem_cons.1 h with h2 | h2
        · exact Or.inr ⟨h2 ▸ List.mem_cons_self a rest, h2 ▸ haw⟩
        · rcases ih false c h2 with h3 | ⟨h4, h5⟩
          · exact Or.inl h3
          · exact Or.inr ⟨List.mem_cons_of_mem a h4, h5⟩

theorem noDoubledHyphen_cons₂ {a b : Char} {t : List Char}
    (h : (a == '-' && b == '-') = false)
    (ht : noDoubledHyphen (b :: t) = true) :
    noDoubledHyphen (a :: b :: t) = true := by
  rw [noDoubledHyphen, h, ht]
  rfl

theorem noDoubledHyphen_cons {a : Char} {t : List Char} (ha : a ≠ '-')
    (ht : noDoubledHyphen t = true) : noDoubledHyphen (a :: t) = true := by
  cases t with
  | nil => rfl
  | cons b t2 =>
    exact noDoubledHyphen_cons₂ (by simp [ha]) ht

theorem noDoubledHyphen_of_cons {a : Char} {t : List Char}
    (h : noDoubledHyphen (a :: t) = true) : noDoubledHyphen t = true := by
  cases t with
  | nil => rfl
  | cons b t2 =>
    rw [noDoubledHyphen, Bool.and_eq_true] at h
    exact h.2

theorem noDoubledHyphen_collapseGo : ∀ (l : List Char) (p : Bool),
    noDoubledHyphen (collapseGo p l) = true := by
  intro l
  induction l with
  | nil =>
    intro p
    cases p <;> rfl
  | cons a rest ih =>
    intro p
    cases ha : isSep a with
    | true =>
      rw [collapseGo, if_pos ha]
      exact ih true
    | false =>
      have haw : isWordChar a = true := by
        have := congrArg Bool.not ha
        simpa [isSep] using this
      have hne : a ≠ '-' := isWordChar_ne_hyphen haw
      cases p with
      | false =>
        rw [collapseGo, if_neg (by simp [ha]), if_neg (by simp)]
        exact noDoubledHyphen_cons hne (ih false)
      | true =>
        rw [collapseGo, if_neg (by simp [ha]), if_pos rfl]
        exact noDoubledHyphen_cons₂ (by simp [hne])
          (noDoubledHyphen_cons hne (ih false))

theorem collapseGo_eq_self : ∀ (l : List Char),
    (∀ c ∈ l, isSep c = true → c = '-') →
    noDoubledHyphen l = true → collapseGo false l = l
  | [], _, _ => rfl
  | [a], h1, _ => by
    cases ha : isSep a with
    | true =>
      have := h1 a (List.mem_cons_self a []) ha
      subst this
      decide
    | false =>
      rw [collapseGo, if_neg (by simp [ha]), if_neg (by simp)]
      rfl
  | a :: b :: rest, h1, h2 => by
    have hrec := collapseGo_eq_self (b :: rest)
      (fun c hc hs => h1 c (List.mem_cons_of_mem a hc) hs)
      (noDoubledHyphen_of_cons h2)
    cases ha : isSep a with
    | false =>
      rw [collapseGo, if_neg (by simp [ha]), if_neg (by simp), hrec]
    | true =>
      have ha' : a = '-' := h1 a (List.mem_cons_self a _) ha
      have hb' : b ≠ '-' := by
        subst ha'
        rw [noDoubledHyphen, Bool.and_eq_true] at h2
        intro e
        subst e
        exact absurd h2.1 (by decide)
      have hbsep : isSep b = false := by
        cases hsb : isSep b with
        | true => exact absurd (h1 b (List.mem_cons_of_mem a (List.mem_cons_self b _)) hsb) hb'
        | false => rfl
      have htail : collapseGo false rest = rest := by
        rw [collapseGo, if_neg (by simp [hbsep]), if_neg (by simp)] at hrec
        exact List.cons.inj hrec |>.2
      rw [collapseGo, if_pos ha, ha']
      rw [collapseGo, if_neg (by simp [hbsep]), if_pos rfl, htail]

theorem mem_slugifyL {c : Char} {l : List Char} (h : c ∈ slugifyL l) :
    c = '-' ∨ (c ∈ lowerL (asciiIgnoreL (nfkdL l)) ∧ isWordChar c = true) :=
  mem_collapseGo _ false c h

theorem slugifyL_toLower_fixed {c : Char} {l : List Char} (h : c ∈ slugifyL l) :
    Char.toLower c = c := by
  rcases mem_slugifyL h with h1 | ⟨h2, _⟩
  · subst h1
    decide
  · rcases List.mem_map.1 (by simpa [lowerL] using h2) with ⟨d, _, hd⟩
    rw [← hd]
    exact toLower_toLower d

theorem slugifyL_not_upper {c : Char} {l : List Char} (h : c ∈ slugifyL l) :
    ¬(65 ≤ c.toNat ∧ c.toNat ≤ 90) := by
  have h2 := toLower_not_upper c
  rw [slugifyL_toLower_fixed h] at h2
  exact h2

theorem slugifyL_charset {c : Char} {l : List Char} (h : c ∈ slugifyL l) :
    (isLowerAlnum c || (c == '-')) = true := by
  rcases mem_slugifyL h with h1 | ⟨_, hw⟩
  · subst h1
    decide
  · have hnu := slugifyL_not_upper h
    rw [Bool.or_eq_true]
    left
    rw [isLowerAlnum, decide_eq_true_eq]
    rw [isWordChar, decide_eq_true_eq] at hw
    rcases hw with h1 | h1 | h1
    · exact absurd h1 hnu
    · exact Or.inl h1
    · exact Or.inr h1

theorem slugifyL_ascii {c : Char} {l : List Char} (h : c ∈ slugifyL l) :
    c.toNat ≤ 127 := by
  have h2 := slugifyL_charset h
  rw [Bool.or_eq_true, isLowerAlnum, decide_eq_true_eq] at h2
  rcases h2 with (h1 | h1) | h1
  · omega
  · omega
  · have h3 : c = '-' := by simpa using h1
    subst h3
    decide

theorem slugifyL_sep_hyphen {c : Char} {l : List Char} (h : c ∈ slugifyL l)
    (hs : isSep c = true) : c = '-' := by
  rcases mem_slugifyL h with h1 | ⟨_, hw⟩
  · exact h1
  · rw [isSep, hw] at hs
    exact absurd hs (by decide)

theorem nfkdL_eq_self : ∀ {l : List Char}, (∀ c ∈ l, c.toNat ≠ 0xEA) →
    nfkdL l = l := by
  intro l
  induction l with
  | nil => exact fun _ => rfl
  | cons a r ih =>
    intro h
    rw [nfkdL, nfkdChar, if_neg (h a (List.mem_cons_self a r)),
      ih (fun c hc => h c (List.mem_cons_of_mem a hc))]
    rfl

theorem asciiIgnoreL_eq_self : ∀ {l : List Char}, (∀ c ∈ l, c.toNat ≤ 127) →
    asciiIgnoreL l = l := by
  intro l
  induction l with
  | nil => exact fun _ => rfl
  | cons a r ih =>
    intro h
    have ha : decide (a.toNat ≤ 127) = true := by
      simpa using h a (List.mem_cons_self a r)
    have hr := ih (fun c hc => h c (List.mem_cons_of_mem a hc))
    simp only [asciiIgnoreL] at hr ⊢
    rw [List.filter_cons, if_pos ha, hr]

theorem lowerL_eq_self : ∀ {l : List Char}, (∀ c ∈ l, Char.toLower c = c) →
    lowerL l = l := by
  intro l
  induction l with
  | nil => exact fun _ => rfl
  | cons a r ih =>
    intro h
    have hr := ih (fun c hc => h c (List.mem_cons_of_mem a hc))
    simp only [lowerL] at hr ⊢
    rw [List.map_cons, h a (List.mem_cons_self a r), hr]

theorem slugifyL_idempotent (l : List Char) : slugifyL (slugifyL l) = slugifyL l := by
  have hn : nfkdL (slugifyL l) = slugifyL l :=
    nfkdL_eq_self (fun c hc => by have := slugifyL_ascii hc; omega)
  have hai : asciiIgnoreL (slugifyL l) = slugifyL l :=
    asciiIgnoreL_eq_self (fun c hc => slugifyL_ascii hc)
  have hlo : lowerL (slugifyL l) = slugifyL l :=
    lowerL_eq_self (fun c hc => slugifyL_toLower_fixed hc)
  have hc : collapseGo false (slugifyL l) = slugifyL l :=
    collapseGo_eq_self _ (fun c hc hs => slugifyL_sep_hyphen hc hs)
      (noDoubledHyphen_collapseGo (lowerL (asciiIgnoreL (nfkdL l))) false)
  show collapseL (lowerL (asciiIgnoreL (nfkdL (slugifyL l)))) = slugifyL l
  rw [hn, hai, hlo]
  exact hc

/-- C1 (counterexample): the claim says every slug matches
`^[a-z0-9]+(-[a-z0-9]+)*$` or is flagged via `DegenerateSlugError`; but
`slugify "a!"` is `"a-"`, which has a trailing hyphen and so does not match
the regular expression, is not empty (so not even the degenerate case
applies), and the code flags nothing. -/
theorem c1_slug_regex_counterexample :
    slugify "a!" = "a-" ∧ matchesSlugRegex (slugify "a!") = false ∧
    slugify "a!" ≠ "" :=
  ⟨by decide, by decide, by decide⟩

/-- C1 (amended): for every input text `t`, `slugify t` consists only of
lowercase ASCII alphanumerics and hyphens — never an uppercase letter, a
non-ASCII character, or two consecutive hyphens — but it may begin or end
with a hyphen (when `t` begins or ends with separator characters), and no
`DegenerateSlugError` is ever flagged. -/
theorem c1_slug_charset_amended (t : String) :
    (slugify t).data.all (fun c => isLowerAlnum c || (c == '-')) = true ∧
    noDoubledHyphen (slugify t).data = true := by
  constructor
  · rw [List.all_eq_true]
    intro c hc
    exact slugifyL_charset (l := t.data) hc
  · exact noDoubledHyphen_collapseGo (lowerL (asciiIgnoreL (nfkdL t.data))) false

/-- C2 (code bug): for a record whose slug-source text `"中文"` is non-empty
but purely ideographic, the normalizer yields the empty string and the
compile pass silently emits a Block whose slug is the empty string — no
`DegenerateSlugError` exists anywhere in the code and the Block is not
suppressed, contradicting the stated policy. -/
theorem c2_ideographic_block_emitted :
    slugify "中文" = "" ∧
    compile [Record.expression ⟨"中文", "chinois"⟩] =
      [renderExpression ⟨"中文", "chinois"⟩] ∧
    (renderExpression ⟨"中文", "chinois"⟩).slug = "" :=
  ⟨by decide, rfl, by decide⟩

/-- C3 (counterexample): `"Rock-Solid"` and `"rock solid"` derive the same
slug `"rock-solid"`, yet the compile pass raises nothing and emits both
Blocks — output is produced, contradicting the claimed eager
`DuplicateSlugError` with no partial output. -/
theorem c3_duplicate_slug_counterexample :
    (renderExpression ⟨"Rock-Solid", "x"⟩).slug =
      (renderExpression ⟨"rock solid", "y"⟩).slug ∧
    compile [Record.expression ⟨"Rock-Solid", "x"⟩,
             Record.expression ⟨"rock solid", "y"⟩] =
      [renderExpression ⟨"Rock-Solid", "x"⟩,
       renderExpression ⟨"rock solid", "y"⟩] ∧
    (compile [Record.expression ⟨"Rock-Solid", "x"⟩,
              Record.expression ⟨"rock solid", "y"⟩]).length = 2 :=
  ⟨by decide, rfl, rfl⟩

/-- C3 (amended): the compile pass performs no duplicate-slug detection:
even for a Catalog of two Records whose derived slugs are equal it emits
one Block per Record, in order, both carrying the same slug; no
`DuplicateSlugError` is raised. -/
theorem c3_no_duplicate_detection_amended (r₁ r₂ : Record)
    (h : (render r₁).slug = (render r₂).slug) :
    compile [r₁, r₂] = [render r₁, render r₂] := rfl

/-- C3 witness: the amended theorem applied to the colliding records
`"Rock-Solid"` and `"rock solid"`. -/
theorem c3_no_duplicate_detection_witness :
    compile [Record.expression ⟨"Rock-Solid", "x"⟩,
             Record.expression ⟨"rock solid", "y"⟩] =
      [render (Record.expression ⟨"Rock-Solid", "x"⟩),
       render (Record.expression ⟨"rock solid", "y"⟩)] :=
  c3_no_duplicate_detection_amended
    (Record.expression ⟨"Rock-Solid", "x"⟩)
    (Record.expression ⟨"rock solid", "y"⟩) (by decide)

/-- C4: slug derivation is deterministic — `slugify` is a pure function, so
two invocations on the identical input text yield identical output. -/
theorem c4_slugify_deterministic (t₁ t₂ : String) (h : t₁ = t₂) :
    slugify t₁ = slugify t₂ :=
  congrArg slugify h

/-- C4 witness: determinism at the concrete input `"Rock-Solid"`. -/
theorem c4_slugify_deterministic_witness :
    slugify "Rock-Solid" = slugify "Rock-Solid" :=
  c4_slugify_deterministic "Rock-Solid" "Rock-Solid" rfl

/-- C5: slug derivation is idempotent — for every input text `t`,
`slugify (slugify t) = slugify t`: slug output is already ASCII, lowercase,
and free of separator runs, so every stage of the pipeline fixes it. -/
theorem c5_slugify_idempotent (t : String) :
    slugify (slugify t) = slugify t :=
  congrArg String.mk (slugifyL_idempotent t.data)

/-- C6 (counterexample): feeding
`"être pris entre le marteau et l'enclume"` through the Normalizer alone
does not yield `"etre pris entre le marteau et l enclume"`: the apostrophe
is ASCII and survives normalization unchanged, so the Normalizer yields
`"etre pris entre le marteau et l'enclume"`. -/
theorem c6_normalizer_counterexample :
    normalize "être pris entre le marteau et l'enclume" ≠
      "etre pris entre le marteau et l enclume" ∧
    normalize "être pris entre le marteau et l'enclume" =
      "etre pris entre le marteau et l'enclume" :=
  ⟨by decide, by decide⟩

/-- C6 (amended): the Normalizer strips the diacritic (ê → e) and
lowercases, yielding `"etre pris entre le marteau et l'enclume"` — the
apostrophe only becomes a separator at the Slugifier stage, where the full
pipeline yields `"etre-pris-entre-le-marteau-et-l-enclume"`. -/
theorem c6_normalizer_amended :
    normalize "être pris entre le marteau et l'enclume" =
      "etre pris entre le marteau et l'enclume" ∧
    slugify "être pris entre le marteau et l'enclume" =
      "etre-pris-entre-le-marteau-et-l-enclume" :=
  ⟨by decide, by decide⟩

/-- C7: compilation preserves Catalog order — for every Catalog of records
`[r₁, r₂, r₃]` the emitted Block sequence is exactly
`[block r₁, block r₂, block r₃]`, one Block per Record. -/
theorem c7_compile_order_preserving (r₁ r₂ r₃ : Record) :
    compile [r₁, r₂, r₃] = [render r₁, render r₂, render r₃] ∧
    (compile [r₁, r₂, r₃]).length = 3 :=
  ⟨rfl, rfl⟩

/-- C8: for every IrregularVerb record the slug embedded in its Block is
`slugify` of the literal concatenation `"em-irregular-verb-" ++ base`; in
particular for `base = "be"` the slug is exactly `"em-irregular-verb-be"`. -/
theorem c8_verb_slug_prefixed (v : IrregularVerb) :
    (renderVerb v).slug = slugify ("em-irregular-verb-" ++ v.base) ∧
    (v.base = "be" → (renderVerb v).slug = "em-irregular-verb-be") := by
  refine ⟨rfl, fun h => ?_⟩
  show slugify ("em-irregular-verb-" ++ v.base) = "em-irregular-verb-be"
  rw [h]
  decide

/-- C8 witness: the theorem applied to the verb `be` of the
`IRREGULAR_VERBS` table. -/
theorem c8_verb_slug_prefixed_witness :
    (renderVerb ⟨"be", "was/were", "been"⟩).slug =
      slugify ("em-irregular-verb-" ++ "be") ∧
    (renderVerb ⟨"be", "was/were", "been"⟩).slug = "em-irregular-verb-be" :=
  ⟨(c8_verb_slug_prefixed ⟨"be", "was/were", "been"⟩).1,
   (c8_verb_slug_prefixed ⟨"be", "was/were", "been"⟩).2 rfl⟩

/-- C9: for every IrregularVerb record the back content of its Block is the
literal string `past_tense ++ " / " ++ past_participle`, rendered verbatim
with no normalization; in particular for past tense and past participle
both `"had"` the back content is exactly `"had / had"`. -/
theorem c9_verb_back_verbatim (v : IrregularVerb) :
    (renderVerb v).back = v.past_tense ++ " / " ++ v.past_participle ∧
    (v.past_tense = "had" → v.past_participle = "had" →
      (renderVerb v).back = "had / had") := by
  refine ⟨rfl, fun h1 h2 => ?_⟩
  show v.past_tense ++ " / " ++ v.past_participle = "had / had"
  rw [h1, h2]
  decide

/-- C9 witness: the theorem applied to the verb `have` of the
`IRREGULAR_VERBS` table. -/
theorem c9_verb_back_verbatim_witness :
    (renderVerb ⟨"have", "had", "had"⟩).back = "had" ++ " / " ++ "had" ∧
    (renderVerb ⟨"have", "had", "had"⟩).back = "had / had" :=
  ⟨(c9_verb_back_verbatim ⟨"have", "had", "had"⟩).1,
   (c9_verb_back_verbatim ⟨"have", "had", "had"⟩).2 rfl rfl⟩

/-- C10: the slug of an Expression Block depends only on its source
(`"en-en"`) phrase: two Expression records with identical source phrases
derive identical slugs whatever their target (`"fr-fr"`) phrases are. -/
theorem c10_expression_slug_source_only (e₁ e₂ : Expression)
    (h : e₁.en_en = e₂.en_en) :
    (renderExpression e₁).slug = (renderExpression e₂).slug := by
  show slugify e₁.en_en = slugify e₂.en_en
  rw [h]

/-- C10 witness: two records sharing the source phrase of the `EXPRESSIONS`
table but with different target phrases derive the same slug. -/
theorem c10_expression_slug_source_only_witness :
    (renderExpression ⟨"be caught between a rock and a hard place",
      "être pris entre le marteau et l'enclume"⟩).slug =
    (renderExpression ⟨"be caught between a rock and a hard place",
      "entre le marteau et l'enclume"⟩).slug :=
  c10_expression_slug_source_only
    ⟨"be caught between a rock and a hard place",
      "être pris entre le marteau et l'enclume"⟩
    ⟨"be caught between a rock and a hard place",
      "entre le marteau et l'enclume"⟩ rfl

end NoteWriter
